import Mathlib

/-!
Verification of the NEA PSI scraper (src/psi_scraper.py) against its
specification.  The script is a single-pass batch job: it iterates a date
range, fetches one HTML table per day, corrects a midnight mislabeling in
the source timestamps, accumulates all rows into one timestamp-indexed
table, and exports that table whole or split into per-day CSV files.

The embedding below mirrors the source functions:
  - `toDatetime`     models `_to_datetime` (lines 80-110),
  - `neaHeaders`, `readRows`, `getNeaDict` model `_get_nea_dict`
    (lines 16-77) with the HTTP fetch abstracted as an oracle that
    yields the HTML table rows (lists of cell texts),
  - `downloadDays`, `runDays`, `downloadDf` model `_download_df`
    (lines 113-178),
  - `savePerDay` models `_save_csv_per_day` (lines 181-200).

Machine details that the claims do not touch (the exact URL template,
printing of progress lines, pickling) are not modeled; the list of error
messages that `_download_df` prints is returned explicitly.
-/

/-- A calendar date, as carried by a Python `datetime` at midnight. -/
structure Date where
  year : Nat
  month : Nat
  day : Nat
deriving DecidableEq

/-- A timezone-aware timestamp as produced by `_to_datetime`: the program
only ever builds whole hours in a fixed offset, so minutes and seconds are
always zero and are not carried. -/
structure DateTime where
  date : Date
  hour : Nat
  tz : String
deriving DecidableEq

/-- Python `datetime` comparison restricted to dates: lexicographic on
(year, month, day). -/
def dateLt (a b : Date) : Bool :=
  a.year < b.year ||
    (a.year = b.year && (a.month < b.month ||
      (a.month = b.month && a.day < b.day)))

/-- Non-strict date comparison. -/
def dateLe (a b : Date) : Bool :=
  dateLt a b || a = b

/-- Python `datetime` comparison on the timestamps the program builds: all
share the fixed +0800 offset, so instants compare lexicographically on
(date, hour). -/
def dtLe (a b : DateTime) : Bool :=
  dateLt a.date b.date || (a.date = b.date && a.hour ≤ b.hour)

/-- Gregorian leap year, as used by Python `calendar` and `datetime`. -/
def isLeap (y : Nat) : Bool :=
  y % 4 = 0 && (y % 100 ≠ 0 || y % 400 = 0)

/-- Number of days in a month, as returned by `calendar.monthrange`. -/
def daysInMonth (y m : Nat) : Nat :=
  match m with
  | 2 => if isLeap y then 29 else 28
  | 4 => 30
  | 6 => 30
  | 9 => 30
  | 11 => 30
  | _ => 31

/-- Validity of a calendar date, as enforced by the Python `datetime`
constructor (the year bounds relevant to `strptime` are checked separately
in `toDatetime`). -/
def validDate (d : Date) : Bool :=
  1 ≤ d.month && d.month ≤ 12 && 1 ≤ d.day && d.day ≤ daysInMonth d.year d.month

/-- The calendar successor of a date, as computed by
`datetime + timedelta(days=1)`. -/
def nextDay (d : Date) : Date :=
  if d.day < daysInMonth d.year d.month then ⟨d.year, d.month, d.day + 1⟩
  else if d.month < 12 then ⟨d.year, d.month + 1, 1⟩
  else ⟨d.year + 1, 1, 1⟩

/-- A linearization of dates that is strictly monotone for the lexicographic
order on well-formed dates (month at most 12, day at most 31); used only to
bound loop fuel. -/
def dateSerial (d : Date) : Nat :=
  d.year * 500 + d.month * 32 + d.day

/-- The hour tokens accepted by `strptime` for `%I`: its pattern is the
alternation of 1[0-2], 0[1-9] and [1-9], paired with the parsed value. -/
def hourTokens : List (String × Nat) :=
  [("10", 10), ("11", 11), ("12", 12),
   ("01", 1), ("02", 2), ("03", 3), ("04", 4), ("05", 5),
   ("06", 6), ("07", 7), ("08", 8), ("09", 9),
   ("1", 1), ("2", 2), ("3", 3), ("4", 4), ("5", 5),
   ("6", 6), ("7", 7), ("8", 8), ("9", 9)]

/-- The am spellings accepted by `strptime` for `%p` (it matches
case-insensitively). -/
def amVariants : List String := ["am", "aM", "Am", "AM"]

/-- The pm spellings accepted by `strptime` for `%p`. -/
def pmVariants : List String := ["pm", "pM", "Pm", "PM"]

/-- Conversion of a 12-hour clock value and am/pm flag to a 24-hour value,
as performed by `strptime` when combining `%I` with `%p`. -/
def hour24 (h : Nat) (isPm : Bool) : Nat :=
  if isPm then (if h = 12 then 12 else h + 12)
  else (if h = 12 then 0 else h)

/-- Whitespace removal from both ends of a string, written as a structural
recursion so that concrete runs reduce.  It serves two places where the
source discards edge whitespace: the `.strip()` call on cell texts (line
75), and the absorption of padding around `hour_text` by `strptime`, whose
compiled pattern turns each whitespace run of the format into one-or-more
whitespace and embeds `hour_text` between two such runs.  The data of this
source is plain ASCII, for which space, tab, CR and LF cover the whitespace
both Python notions accept. -/
def pyStrip (s : String) : String :=
  ⟨((s.data.dropWhile Char.isWhitespace).reverse.dropWhile
      Char.isWhitespace).reverse⟩

/-- Helper for `parseHourLabel`: try each hour token as a prefix of the
label, requiring the remainder to be exactly one am/pm spelling, mirroring
how the `strptime` regex must consume the whole `hour_text` before the
literal space that precedes the offset. -/
def parseHourLabelAux (s : String) : List (String × Nat) → Option Nat
  | [] => none
  | (t, h) :: rest =>
    if amVariants.any (fun ap => s == t ++ ap) then some (hour24 h false)
    else if pmVariants.any (fun ap => s == t ++ ap) then some (hour24 h true)
    else parseHourLabelAux s rest

/-- The result of `strptime` on the `%I%p` fragment of the format string of
`_to_datetime`: the 24-hour value when `hour_text` is well-formed, `none`
when `strptime` would raise `ValueError`.  CPython compiles the format with
every whitespace run replaced by one-or-more whitespace, and `hour_text` is
interpolated between two spaces of the data string, so leading and trailing
whitespace of the label is absorbed; after that the label must be exactly
an hour token directly followed by an am/pm spelling. -/
def parseHourLabel (s : String) : Option Nat :=
  parseHourLabelAux (pyStrip s) hourTokens

/-- Model of `_to_datetime` (lines 80-110).  `strptime` with format
`%Y-%m-%d %I%p %z` fails unless the year has exactly four digits, the date
is a real calendar date, and `hour_text` matches `%I%p`; `none` models the
uncaught `ValueError`.  On success the code adds one day exactly when the
parsed hour is midnight.  The timezone argument defaults to `+0800` and the
program never passes anything else, so it is carried verbatim. -/
def toDatetime (year month day : Nat) (hourText : String)
    (tz : String := "+0800") : Option DateTime :=
  if 1000 ≤ year ∧ year ≤ 9999 ∧ validDate ⟨year, month, day⟩ = true then
    match parseHourLabel hourText with
    | none => none
    | some h =>
      if h = 0 then some ⟨nextDay ⟨year, month, day⟩, h, tz⟩
      else some ⟨⟨year, month, day⟩, h, tz⟩
  else none

/-- The six PSI columns (lines 45-52). -/
def psiHeaders : List String :=
  ["PSI-North", "PSI-South", "PSI-East", "PSI-West",
   "PSI-Central", "PSI-Overall"]

/-- The six PM2.5 columns (lines 59-66). -/
def pmHeaders : List String :=
  ["PM2.5-North", "PM2.5-South", "PM2.5-East", "PM2.5-West",
   "PM2.5-Central", "PM2.5-Overall"]

/-- The PM2.5 subsume cutoff date (line 56). -/
def pmSubsumeDate : Date := ⟨2014, 4, 1⟩

/-- The active column list of `_get_nea_dict` for a date (lines 45-66): the
twelve-column schema strictly before 2014-04-01, the six-column schema on or
after it. -/
def neaHeaders (d : Date) : List String :=
  if dateLt d pmSubsumeDate then psiHeaders ++ pmHeaders else psiHeaders

/-- Spec-side reading of a date being strictly before 2014-04-01, written
out over the calendar fields. -/
def specBeforeCutoff (d : Date) : Prop :=
  d.year < 2014 ∨ (d.year = 2014 ∧ (d.month < 4 ∨ (d.month = 4 ∧ d.day < 1)))

/-- The list of (year, month, day) triples that `_download_df` attempts, in
order (lines 140-159): a nested iteration of `range(year_start, year_end+1)`
and `range(month_start, month_end+1)`, with `day_start` applied only in the
(year_start, month_start) block and `day_end` (when given) only in the
(year_end, month_end) block; other months run 1 to `monthrange`. -/
def downloadDays (yearStart yearEnd monthStart monthEnd dayStart : Nat)
    (dayEnd : Option Nat) : List Date :=
  (List.range' yearStart (yearEnd + 1 - yearStart)).flatMap fun year =>
    (List.range' monthStart (monthEnd + 1 - monthStart)).flatMap fun month =>
      let numDays := daysInMonth year month
      let firstDay := if year = yearStart ∧ month = monthStart then dayStart else 1
      let lastDay :=
        match dayEnd with
        | some de => if year = yearEnd ∧ month = monthEnd then de else numDays
        | none => numDays
      (List.range' firstDay (lastDay + 1 - firstDay)).map fun day =>
        ⟨year, month, day⟩

/-- Helper for `specCalendarDays`, recursing on fuel. -/
def specCalendarDaysAux : Nat → Date → Date → List Date
  | 0, _, _ => []
  | fuel + 1, cur, last =>
    if dateLe cur last then cur :: specCalendarDaysAux fuel (nextDay cur) last
    else []

/-- Modelled from the spec (section 4.3): the list of every calendar day
from `start` to `last` inclusive, ascending, crossing month and year
boundaries with calendar-aware day counting.  This is the refinement
comparison definition for claim C1; the fuel bounds the recursion and is
large enough for any start at most last. -/
def specCalendarDays (start last : Date) : List Date :=
  specCalendarDaysAux (dateSerial last + 2 - dateSerial start) start last

/-- Unfolding lemma for `toDatetime` when the hour label parses. -/
theorem toDatetime_of_parse (y m d h24 : Nat) (label tz : String)
    (hguard : 1000 ≤ y ∧ y ≤ 9999 ∧ validDate ⟨y, m, d⟩ = true)
    (hp : parseHourLabel label = some h24) :
    toDatetime y m d label tz =
      (if h24 = 0 then some ⟨nextDay ⟨y, m, d⟩, h24, tz⟩
       else some ⟨⟨y, m, d⟩, h24, tz⟩) := by
  unfold toDatetime
  rw [if_pos hguard, hp]

set_option maxRecDepth 40000

/-- C1: the claim says `_download_df` attempts every calendar day in
[start, end] inclusive for every start at most end.  The code instead
iterates the Cartesian product of the year range and the month range, so a
range that crosses a year boundary with `month_end < month_start` visits no
day at all.  At start 2010-11-15, end 2011-02-10 the code attempts nothing,
while the calendar range holds 88 days. -/
theorem c1_range_iteration_bug :
    downloadDays 2010 2011 11 2 15 (some 10) = [] ∧
    (specCalendarDays ⟨2010, 11, 15⟩ ⟨2011, 2, 10⟩).length = 88 ∧
    ⟨2010, 12, 1⟩ ∈ specCalendarDays ⟨2010, 11, 15⟩ ⟨2011, 2, 10⟩ := by
  refine ⟨by decide, by decide, by decide⟩

/-- C5: strictly before 2014-04-01 the active column list of `_get_nea_dict`
is the twelve-column schema, six PSI columns followed by six PM2.5 columns;
on or after the cutoff it is the six-column PSI-only schema.  The Python
`datetime` comparison agrees with the calendar reading of the cutoff. -/
theorem c5_schema_cutoff (d : Date) :
    (dateLt d pmSubsumeDate = true ↔ specBeforeCutoff d) ∧
    (dateLt d pmSubsumeDate = true →
      neaHeaders d = psiHeaders ++ pmHeaders ∧ (neaHeaders d).length = 12) ∧
    (dateLt d pmSubsumeDate = false →
      neaHeaders d = psiHeaders ∧ (neaHeaders d).length = 6) := by
  refine ⟨?_, ?_, ?_⟩
  · simp only [dateLt, pmSubsumeDate, specBeforeCutoff, Bool.or_eq_true,
      Bool.and_eq_true, decide_eq_true_eq]
  · intro h
    simp [neaHeaders, h, psiHeaders, pmHeaders]
  · intro h
    simp [neaHeaders, h, psiHeaders]

/-- Witness for C5 at 2014-03-31 (one day before the cutoff). -/
theorem c5_schema_cutoff_witness :
    dateLt ⟨2014, 3, 31⟩ pmSubsumeDate = true ∧
    neaHeaders ⟨2014, 3, 31⟩ = psiHeaders ++ pmHeaders ∧
    (neaHeaders ⟨2014, 3, 31⟩).length = 12 :=
  ⟨by decide, (c5_schema_cutoff ⟨2014, 3, 31⟩).2.1 (by decide)⟩

/-- C4: for every valid calendar date, `_to_datetime` sends "12am" to 00:00
on the next calendar day (never the same day), sends "1am" to 01:00 on the
same day, and in general applies the one-day shift exactly when the parsed
hour is midnight. -/
theorem c4_midnight_shift (y m d : Nat) (hy : 1000 ≤ y) (hy2 : y ≤ 9999)
    (hv : validDate ⟨y, m, d⟩ = true) :
    toDatetime y m d "12am" = some ⟨nextDay ⟨y, m, d⟩, 0, "+0800"⟩ ∧
    nextDay ⟨y, m, d⟩ ≠ ⟨y, m, d⟩ ∧
    toDatetime y m d "1am" = some ⟨⟨y, m, d⟩, 1, "+0800"⟩ ∧
    (∀ label dt, toDatetime y m d label = some dt →
      (dt.hour = 0 → dt.date = nextDay ⟨y, m, d⟩) ∧
      (dt.hour ≠ 0 → dt.date = ⟨y, m, d⟩)) := by
  have hguard : 1000 ≤ y ∧ y ≤ 9999 ∧ validDate ⟨y, m, d⟩ = true :=
    ⟨hy, hy2, hv⟩
  have h12 : parseHourLabel "12am" = some 0 := by decide
  have h1 : parseHourLabel "1am" = some 1 := by decide
  refine ⟨?_, ?_, ?_, ?_⟩
  · simp [toDatetime, hguard, h12]
  · unfold nextDay
    split
    · simp only [ne_eq, Date.mk.injEq]
      omega
    · split
      · simp only [ne_eq, Date.mk.injEq]
        omega
      · simp only [ne_eq, Date.mk.injEq]
        omega
  · simp [toDatetime, hguard, h1]
  · intro label dt hdt
    cases hp : parseHourLabel label with
    | none =>
      unfold toDatetime at hdt
      rw [if_pos hguard, hp] at hdt
      exact absurd hdt (by simp)
    | some h =>
      rw [toDatetime_of_parse y m d h label _ hguard hp] at hdt
      by_cases hz : h = 0
      · rw [if_pos hz] at hdt
        cases hdt
        exact ⟨fun _ => rfl, fun hne => absurd hz hne⟩
      · rw [if_neg hz] at hdt
        cases hdt
        exact ⟨fun hzz => absurd hzz hz, fun _ => rfl⟩

/-- Witness for C4 at the year boundary 2015-12-31. -/
theorem c4_midnight_shift_witness :
    validDate ⟨2015, 12, 31⟩ = true ∧
    toDatetime 2015 12 31 "12am" = some ⟨nextDay ⟨2015, 12, 31⟩, 0, "+0800"⟩ :=
  ⟨by decide, (c4_midnight_shift 2015 12 31 (by decide) (by decide) (by decide)).1⟩

/-- C10: for every valid calendar date, `_to_datetime` sends "12pm" to noon
on the same day with the +0800 offset: the midnight correction never touches
noon, only a parsed hour of 0. -/
theorem c10_noon_no_shift (y m d : Nat) (hy : 1000 ≤ y) (hy2 : y ≤ 9999)
    (hv : validDate ⟨y, m, d⟩ = true) :
    toDatetime y m d "12pm" = some ⟨⟨y, m, d⟩, 12, "+0800"⟩ := by
  have hguard : 1000 ≤ y ∧ y ≤ 9999 ∧ validDate ⟨y, m, d⟩ = true :=
    ⟨hy, hy2, hv⟩
  have h12 : parseHourLabel "12pm" = some 12 := by decide
  simp [toDatetime, hguard, h12]

/-- Witness for C10 at the leap day 2012-02-29. -/
theorem c10_noon_no_shift_witness :
    validDate ⟨2012, 2, 29⟩ = true ∧
    toDatetime 2012 2 29 "12pm" = some ⟨⟨2012, 2, 29⟩, 12, "+0800"⟩ :=
  ⟨by decide, c10_noon_no_shift 2012 2 29 (by decide) (by decide) (by decide)⟩

/-- A row of the final dataframe after the column reindexing of line 177:
each final column name paired with its value, `none` standing for a NaN
cell of a row fetched under a smaller schema. -/
abbrev Row := List (String × Option String)

/-- A timestamp-indexed table: the dataframe rows in index order. -/
abbrev Table := List (DateTime × Row)

/-- Insertion of one element into a list sorted by timestamp. -/
def insertTs (x : DateTime × Row) : Table → Table
  | [] => [x]
  | y :: ys => if dtLe x.1 y.1 then x :: y :: ys else y :: insertTs x ys

/-- Sorting a table by timestamp ascending; models the value RETURNED by
`df.sort_index()`. -/
def sortByTs : Table → Table
  | [] => []
  | x :: xs => insertTs x (sortByTs xs)

/-- Whether a table is sorted by timestamp ascending. -/
def isSortedByTs : Table → Bool
  | [] => true
  | [_] => true
  | a :: b :: rest => dtLe a.1 b.1 && isSortedByTs (b :: rest)

/-- The table that line 190 onwards of `_save_csv_per_day` operates on.
Line 188 evaluates `df.sort_index()`, which returns a NEW sorted frame
(pandas `inplace` defaults to `False`) and leaves `df` untouched; the
returned frame is discarded, so the partition step receives the original
frame. -/
def tableAfterSortLine (df : Table) : Table :=
  let _sorted := sortByTs df
  df

/-- Minimum of a list of timestamps, as `df.index.min()`. -/
def tsMin (l : List DateTime) : Option DateTime :=
  l.foldl (fun acc x =>
    match acc with
    | none => some x
    | some m => some (if dtLe x m then x else m)) none

/-- Maximum of a list of timestamps, as `df.index.max()`. -/
def tsMax (l : List DateTime) : Option DateTime :=
  l.foldl (fun acc x =>
    match acc with
    | none => some x
    | some m => some (if dtLe m x then x else m)) none

/-- Left zero-pad to two digits, as in the ISO rendering of
`str(datetime.date)`. -/
def pad2 (n : Nat) : String :=
  if n < 10 then "0" ++ toString n else toString n

/-- Left zero-pad to four digits for the year field. -/
def pad4 (n : Nat) : String :=
  if n < 10 then "000" ++ toString n
  else if n < 100 then "00" ++ toString n
  else if n < 1000 then "0" ++ toString n
  else toString n

/-- The per-day file name of line 196: `str(curr.date())` followed by
`.csv`, i.e. the ISO date. -/
def dateFileName (d : Date) : String :=
  pad4 d.year ++ "-" ++ pad2 d.month ++ "-" ++ pad2 d.day ++ ".csv"

/-- The rows selected by the label slice `df[curr:until]` of line 199 on a
monotonic index: both bounds inclusive, index order preserved. -/
def sliceRows (df : Table) (a b : DateTime) : Table :=
  df.filter fun p => dtLe a p.1 && dtLe p.1 b

/-- The while loop of lines 193-200, recursing on fuel.  Each iteration
writes the file for the calendar day of `curr`, slicing the hours 0 to 23 of
that day, then advances `curr` by one day KEEPING its hour-of-day, and the
loop continues while `curr` as a full timestamp is at most the maximum
timestamp `last`. -/
def savePerDayLoop (last : DateTime) (df : Table) :
    Nat → DateTime → List (String × Table)
  | 0, _ => []
  | fuel + 1, curr =>
    if dtLe curr last then
      (dateFileName curr.date,
        sliceRows df ⟨curr.date, 0, curr.tz⟩ ⟨curr.date, 23, curr.tz⟩) ::
        savePerDayLoop last df fuel ⟨nextDay curr.date, curr.hour, curr.tz⟩
    else []

/-- Model of `_save_csv_per_day` (lines 181-200): the list of (file name,
rows) pairs it writes, in order.  The directory creation is not modeled.
On an empty table `index.min()` is NaT and the comparison of line 193 is
false, so nothing is written.  The fuel strictly bounds the number of
calendar days from the day of the minimum to the day of the maximum. -/
def savePerDay (df : Table) : List (String × Table) :=
  let df2 := tableAfterSortLine df
  match tsMin (df2.map Prod.fst), tsMax (df2.map Prod.fst) with
  | some first, some last =>
    savePerDayLoop last df2 (dateSerial last.date + 2 - dateSerial first.date) first
  | _, _ => []

/-- A one-column sample row used in concrete counterexamples. -/
def sampleRowA : Row := [("PSI-Overall", some "55")]

/-- A second one-column sample row used in concrete counterexamples. -/
def sampleRowB : Row := [("PSI-Overall", some "60")]

/-- A sorted table spanning exactly three calendar days whose minimum
timestamp has a later hour-of-day than its maximum: rows at 2016-01-01
05:00 and 2016-01-03 01:00. -/
def threeDayTable : Table :=
  [(⟨⟨2016, 1, 1⟩, 5, "+0800"⟩, sampleRowA),
   (⟨⟨2016, 1, 3⟩, 1, "+0800"⟩, sampleRowB)]

/-- C2: the claim says a table spanning exactly three calendar days yields
exactly three files, one per day from the day of the minimum timestamp to
the day of the maximum, each holding the rows of its day.  The loop of
lines 193-200 compares full timestamps: the cursor keeps the hour-of-day of
the minimum timestamp, so when that hour exceeds the hour of the maximum,
the final day fails the loop condition.  On `threeDayTable` only two files
are written and the row at 2016-01-03 01:00 lands in no file. -/
theorem c2_save_per_day_drops_final_day :
    savePerDay threeDayTable =
      [("2016-01-01.csv", [(⟨⟨2016, 1, 1⟩, 5, "+0800"⟩, sampleRowA)]),
       ("2016-01-02.csv", [])] ∧
    (savePerDay threeDayTable).length = 2 ∧
    (savePerDay threeDayTable).all
      (fun f => f.2.all fun p => p.1 ≠ ⟨⟨2016, 1, 3⟩, 1, "+0800"⟩) = true := by
  refine ⟨by decide, by decide, by decide⟩

/-- An unsorted two-row table: 2016-01-01 02:00 before 2016-01-01 01:00. -/
def unsortedTable : Table :=
  [(⟨⟨2016, 1, 1⟩, 2, "+0800"⟩, sampleRowA),
   (⟨⟨2016, 1, 1⟩, 1, "+0800"⟩, sampleRowB)]

/-- C3: the claim says `_save_csv_per_day` sorts the table by timestamp
before partitioning.  Line 188 calls `df.sort_index()` but discards the
returned sorted frame (pandas sorts out of place by default), so the
partition step receives the table unchanged and still unsorted, even though
sorting it would have reordered it. -/
theorem c3_sort_result_discarded :
    tableAfterSortLine unsortedTable = unsortedTable ∧
    isSortedByTs (tableAfterSortLine unsortedTable) = false ∧
    isSortedByTs (sortByTs unsortedTable) = true ∧
    sortByTs unsortedTable ≠ unsortedTable := by
  refine ⟨by decide, by decide, by decide, by decide⟩

/-- The Python exceptions relevant to `_download_df`: a
`requests.exceptions.RequestException` from the HTTP fetch (the only class
the `try` of lines 161-174 catches), an `IndexError` from subscripting a
short table row, and a `ValueError` from `strptime`. -/
inductive PyError where
  | requestException (msg : String)
  | indexError
  | valueError
deriving DecidableEq

/-- One `<tr>` data row of the fetched HTML table: the cell texts, cell 0
being the hour label. -/
abbrev RawRow := List String

/-- The inner `OrderedDict` of `_get_nea_dict`: column name to raw value. -/
abbrev Vals := List (String × String)

/-- The outer `OrderedDict` of `_get_nea_dict`: hour label to row. -/
abbrev DayData := List (String × Vals)

/-- The accumulator `result_odict` of `_download_df`: corrected timestamp
to row, in insertion order. -/
abbrev Odict := List (DateTime × Vals)

/-- Python dict insertion: an existing key keeps its position and gets the
new value, a fresh key is appended. -/
def dictInsert {α β : Type} [DecidableEq α] (od : List (α × β)) (k : α)
    (v : β) : List (α × β) :=
  if k ∈ od.map Prod.fst then od.map fun p => if p.1 = k then (k, v) else p
  else od ++ [(k, v)]

/-- The loop of lines 69-75 of `_get_nea_dict` over the data rows: cell 0
is the hour label, cells 1..len(headers) are paired positionally with the
headers and stripped; subscripting past the end of the row raises
`IndexError`. -/
def readRows (headers : List String) (od : DayData) :
    List RawRow → Except PyError DayData
  | [] => Except.ok od
  | [] :: _ => Except.error PyError.indexError
  | (hourText :: cells) :: rest =>
    if headers.length ≤ cells.length then
      readRows headers
        (dictInsert od hourText (headers.zip (cells.map pyStrip)))
        rest
    else Except.error PyError.indexError

/-- The parsing part of `_get_nea_dict` (lines 28-77): given the table rows
fetched for a date, skip the two header rows and read the rest against the
active column list of that date, returning the data and the headers. -/
def getNeaDict (rawRows : List RawRow) (d : Date) :
    Except PyError (DayData × List String) :=
  match readRows (neaHeaders d) [] (rawRows.drop 2) with
  | Except.ok data => Except.ok (data, neaHeaders d)
  | Except.error e => Except.error e

/-- The inner loop of lines 167-169 of `_download_df`: each hour label is
corrected into a timestamp (an uncorrectable label raises `ValueError`) and
the row is inserted into the accumulator keyed by that timestamp. -/
def insertHours (d : Date) (od : Odict) : DayData → Except PyError Odict
  | [] => Except.ok od
  | p :: rest =>
    match toDatetime d.year d.month d.day p.1 with
    | none => Except.error PyError.valueError
    | some ts => insertHours d (dictInsert od ts p.2) rest

/-- The loop state of `_download_df`: the accumulated table, the widest
header list seen, and the error messages printed so far. -/
structure DlState where
  odict : Odict
  dfHeaders : List String
  errList : List String
deriving DecidableEq

/-- The error message of lines 172-174 for one failed day. -/
def errMsgFor (d : Date) (msg : String) : String :=
  "Error for " ++ toString d.year ++ "-" ++ toString d.month ++ "-" ++
    toString d.day ++ ": " ++ msg ++ "\n"

/-- The header tracking of lines 164-165: keep the longer list. -/
def pickHeaders (cur new : List String) : List String :=
  if new.length > cur.length then new else cur

/-- The body of the `try` block (lines 162-169) for one day: fetch the
table rows (the oracle `fetch` stands for `requests.get` plus the
BeautifulSoup row extraction and may fail like them), parse them, track the
headers, and insert every hour row. -/
def processDay (fetch : Date → Except PyError (List RawRow)) (st : DlState)
    (d : Date) : Except PyError DlState :=
  match fetch d with
  | Except.error e => Except.error e
  | Except.ok rawRows =>
    match getNeaDict rawRows d with
    | Except.error e => Except.error e
    | Except.ok (data, headers) =>
      match insertHours d st.odict data with
      | Except.error e => Except.error e
      | Except.ok od =>
        Except.ok ⟨od, pickHeaders st.dfHeaders headers, st.errList⟩

/-- One day of lines 159-174 including the handler: only a
`RequestException` is caught and turned into a printed message; every other
exception propagates. -/
def dayStep (fetch : Date → Except PyError (List RawRow)) (st : DlState)
    (d : Date) : Except PyError DlState :=
  match processDay fetch st d with
  | Except.ok st2 => Except.ok st2
  | Except.error (PyError.requestException m) =>
    Except.ok ⟨st.odict, st.dfHeaders, st.errList ++ [errMsgFor d m]⟩
  | Except.error e => Except.error e

/-- The day loop of `_download_df` over a list of dates. -/
def runDays (fetch : Date → Except PyError (List RawRow)) (st : DlState) :
    List Date → Except PyError DlState
  | [] => Except.ok st
  | d :: rest =>
    match dayStep fetch st d with
    | Except.ok st2 => runDays fetch st2 rest
    | Except.error e => Except.error e

/-- The column reindexing `df[df_headers]` of line 177 applied to one row:
every final column in order, `none` where the row has no such column
(pandas fills NaN for rows collected under a smaller schema). -/
def reindexRow (hs : List String) (row : Vals) : Row :=
  hs.map fun h => (h, row.lookup h)

/-- Model of `_download_df` (lines 113-178): runs the day loop over the
attempted dates and returns the reindexed table, the final header list and
the printed error messages; an uncaught exception aborts the whole call. -/
def downloadDf (fetch : Date → Except PyError (List RawRow))
    (yearStart yearEnd monthStart monthEnd dayStart : Nat)
    (dayEnd : Option Nat) :
    Except PyError (Table × List String × List String) :=
  match runDays fetch ⟨[], [], []⟩
      (downloadDays yearStart yearEnd monthStart monthEnd dayStart dayEnd) with
  | Except.error e => Except.error e
  | Except.ok st =>
    Except.ok (st.odict.map fun p => (p.1, reindexRow st.dfHeaders p.2),
      st.dfHeaders, st.errList)

/-- The contribution of one successfully processed day, in isolation: parse
its rows and run the hour insertion into an empty accumulator. -/
def dayPairsE (rawRows : List RawRow) (d : Date) : Except PyError Odict :=
  match getNeaDict rawRows d with
  | Except.error e => Except.error e
  | Except.ok (data, _) => insertHours d [] data

/-- The header list after folding the tracking rule over a list of days. -/
def foldHeaders (init : List String) (days : List Date) : List String :=
  days.foldl (fun cur d => pickHeaders cur (neaHeaders d)) init

/-- Keys after a dict insertion: unchanged when the key was present,
extended by the key otherwise. -/
theorem dictInsert_keys {α β : Type} [DecidableEq α] (od : List (α × β))
    (k : α) (v : β) :
    (dictInsert od k v).map Prod.fst =
      if k ∈ od.map Prod.fst then od.map Prod.fst
      else od.map Prod.fst ++ [k] := by
  unfold dictInsert
  split
  · rw [List.map_map]
    apply List.map_congr_left
    intro p _
    by_cases hp : p.1 = k
    · simp [hp]
    · simp [hp]
  · simp

/-- The inserted key is a key of the result. -/
theorem mem_keys_dictInsert {α β : Type} [DecidableEq α] (od : List (α × β))
    (k : α) (v : β) : k ∈ (dictInsert od k v).map Prod.fst := by
  rw [dictInsert_keys]
  split
  · assumption
  · simp

/-- Insertion never removes a key. -/
theorem keys_subset_dictInsert {α β : Type} [DecidableEq α]
    (od : List (α × β)) (k : α) (v : β) :
    od.map Prod.fst ⊆ (dictInsert od k v).map Prod.fst := by
  rw [dictInsert_keys]
  split
  · exact fun a ha => ha
  · exact fun a ha => List.mem_append_left _ ha

/-- Inserting a key absent from a prefix acts on the suffix alone. -/
theorem dictInsert_append {α β : Type} [DecidableEq α]
    (od0 acc : List (α × β)) (k : α) (v : β)
    (h : k ∉ od0.map Prod.fst) :
    dictInsert (od0 ++ acc) k v = od0 ++ dictInsert acc k v := by
  unfold dictInsert
  have hsplit : (k ∈ (od0 ++ acc).map Prod.fst) ↔ k ∈ acc.map Prod.fst := by
    rw [List.map_append, List.mem_append]
    exact ⟨fun hc => hc.elim (fun hc => absurd hc h) id, Or.inr⟩
  by_cases hacc : k ∈ acc.map Prod.fst
  · rw [if_pos (hsplit.mpr hacc), if_pos hacc, List.map_append]
    congr 1
    have hid : List.map (fun p : α × β => if p.1 = k then (k, v) else p) od0 =
        List.map id od0 := by
      apply List.map_congr_left
      intro p hp
      have : p.1 ≠ k := fun he => h (he ▸ List.mem_map_of_mem Prod.fst hp)
      simp [this]
    rw [hid, List.map_id]
  · rw [if_neg (fun hc => hacc (hsplit.mp hc)), if_neg hacc,
      List.append_assoc]

/-- Every entry of an insertion result was in the dict or is the inserted
pair. -/
theorem mem_dictInsert {α β : Type} [DecidableEq α] (od : List (α × β))
    (k : α) (v : β) (q : α × β) (hq : q ∈ dictInsert od k v) :
    q ∈ od ∨ q = (k, v) := by
  unfold dictInsert at hq
  split at hq
  · rw [List.mem_map] at hq
    obtain ⟨p, hp, he⟩ := hq
    by_cases hpk : p.1 = k
    · rw [if_pos hpk] at he
      exact Or.inr he.symm
    · rw [if_neg hpk] at he
      exact Or.inl (he ▸ hp)
  · rw [List.mem_append] at hq
    rcases hq with hq | hq
    · exact Or.inl hq
    · exact Or.inr (List.mem_singleton.mp hq)

/-- Lookup misses when the key is not among the keys. -/
theorem lookup_none_of_not_mem {α β : Type} [BEq α] [LawfulBEq α]
    (l : List (α × β)) (k : α) (h : k ∉ l.map Prod.fst) :
    l.lookup k = none := by
  induction l with
  | nil => rfl
  | cons p rest ih =>
    rw [List.map_cons, List.mem_cons] at h
    push_neg at h
    have : (k == p.1) = false := beq_false_of_ne h.1
    cases p with
    | mk a b =>
      simp only [List.lookup]
      rw [this]
      exact ih h.2

/-- Lookup over a graph of a function on a list hits the function value. -/
theorem lookup_map_graph {α β : Type} [BEq α] [LawfulBEq α] (f : α → β)
    (l : List α) (k : α) (h : k ∈ l) :
    (l.map fun x => (x, f x)).lookup k = some (f k) := by
  induction l with
  | nil => exact absurd h (List.not_mem_nil k)
  | cons x rest ih =>
    rw [List.mem_cons] at h
    simp only [List.map_cons, List.lookup]
    by_cases hx : k = x
    · subst hx
      simp
    · rw [beq_false_of_ne hx]
      exact ih (h.resolve_left hx)

/-- Keys already in the accumulator survive the hour insertion loop. -/
theorem insertHours_keys_mono (d : Date) :
    ∀ (data : DayData) (acc qs : Odict),
      insertHours d acc data = Except.ok qs →
      acc.map Prod.fst ⊆ qs.map Prod.fst := by
  intro data
  induction data with
  | nil =>
    intro acc qs h
    simp only [insertHours] at h
    cases h
    exact fun a ha => ha
  | cons p rest ih =>
    intro acc qs h
    simp only [insertHours] at h
    cases htd : toDatetime d.year d.month d.day p.1 with
    | none => rw [htd] at h; exact absurd h (by simp)
    | some ts =>
      rw [htd] at h
      exact fun a ha =>
        ih (dictInsert acc ts p.2) qs h (keys_subset_dictInsert acc ts p.2 ha)

/-- Running the hour insertion loop on top of a prefix whose keys are
untouched appends the prefix to the result of the loop alone. -/
theorem insertHours_extend (d : Date) :
    ∀ (data : DayData) (acc qs od0 : Odict),
      insertHours d acc data = Except.ok qs →
      (∀ k ∈ qs.map Prod.fst, k ∉ od0.map Prod.fst) →
      insertHours d (od0 ++ acc) data = Except.ok (od0 ++ qs) := by
  intro data
  induction data with
  | nil =>
    intro acc qs od0 h _
    simp only [insertHours] at h ⊢
    cases h
    rfl
  | cons p rest ih =>
    intro acc qs od0 h hfresh
    simp only [insertHours] at h ⊢
    cases htd : toDatetime d.year d.month d.day p.1 with
    | none => rw [htd] at h; exact absurd h (by simp)
    | some ts =>
      rw [htd] at h
      have hts : ts ∈ qs.map Prod.fst :=
        insertHours_keys_mono d rest (dictInsert acc ts p.2) qs h
          (mem_keys_dictInsert acc ts p.2)
      show insertHours d (dictInsert (od0 ++ acc) ts p.2) rest =
        Except.ok (od0 ++ qs)
      rw [dictInsert_append od0 acc ts p.2 (hfresh ts hts)]
      exact ih (dictInsert acc ts p.2) qs od0 h hfresh

/-- The headers returned by a successful parse are the active column list
of the date. -/
theorem getNeaDict_headers (rows : List RawRow) (d : Date) (data : DayData)
    (hs : List String) (h : getNeaDict rows d = Except.ok (data, hs)) :
    hs = neaHeaders d := by
  unfold getNeaDict at h
  cases hr : readRows (neaHeaders d) [] (rows.drop 2) with
  | ok dd =>
    rw [hr] at h
    simp only [Except.ok.injEq, Prod.mk.injEq] at h
    exact h.2.symm
  | error e => rw [hr] at h; exact absurd h (by simp)

/-- The data returned by a successful parse is the row-reading result. -/
theorem getNeaDict_data (rows : List RawRow) (d : Date) (data : DayData)
    (hs : List String) (h : getNeaDict rows d = Except.ok (data, hs)) :
    readRows (neaHeaders d) [] (rows.drop 2) = Except.ok data := by
  unfold getNeaDict at h
  cases hr : readRows (neaHeaders d) [] (rows.drop 2) with
  | ok dd =>
    rw [hr] at h
    simp only [Except.ok.injEq, Prod.mk.injEq] at h
    rw [h.1]
  | error e => rw [hr] at h; exact absurd h (by simp)

/-- A successfully processed day extends the accumulated table with the
contribution of that day alone, provided the new keys are fresh. -/
theorem processDay_good (fetch : Date → Except PyError (List RawRow))
    (st : DlState) (d : Date) (rows : List RawRow) (ps : Odict)
    (hf : fetch d = Except.ok rows)
    (hp : dayPairsE rows d = Except.ok ps)
    (hfresh : ∀ k ∈ ps.map Prod.fst, k ∉ st.odict.map Prod.fst) :
    processDay fetch st d = Except.ok
      ⟨st.odict ++ ps, pickHeaders st.dfHeaders (neaHeaders d), st.errList⟩ := by
  cases hgr : getNeaDict rows d with
  | error e =>
    exfalso
    unfold dayPairsE at hp
    rw [hgr] at hp
    exact absurd hp (by simp)
  | ok pr =>
    obtain ⟨data, hs⟩ := pr
    have hhs : hs = neaHeaders d := getNeaDict_headers rows d data hs hgr
    subst hhs
    have hp2 : insertHours d [] data = Except.ok ps := by
      unfold dayPairsE at hp
      rw [hgr] at hp
      exact hp
    have hins : insertHours d st.odict data = Except.ok (st.odict ++ ps) := by
      have h2 := insertHours_extend d data [] ps st.odict hp2 hfresh
      rwa [List.append_nil] at h2
    simp only [processDay, hf, hgr, hins]

/-- Splitting the day loop at a list append. -/
theorem runDays_append (fetch : Date → Except PyError (List RawRow)) :
    ∀ (l1 l2 : List Date) (st : DlState),
      runDays fetch st (l1 ++ l2) =
        match runDays fetch st l1 with
        | Except.ok st2 => runDays fetch st2 l2
        | Except.error e => Except.error e := by
  intro l1
  induction l1 with
  | nil => intro l2 st; rfl
  | cons d rest ih =>
    intro l2 st
    rw [List.cons_append]
    cases hd : dayStep fetch st d with
    | ok st2 => simp only [runDays, hd]; exact ih l2 st2
    | error e => simp only [runDays, hd]

/-- Folding the day loop over days that all succeed: the table grows by the
per-day contributions in order, the headers fold by the tracking rule, and
no error message is recorded. -/
theorem runDays_good (fetch : Date → Except PyError (List RawRow))
    (rowsOf : Date → List RawRow) (pairsOf : Date → Odict) :
    ∀ (days : List Date) (st : DlState),
      (∀ d ∈ days, fetch d = Except.ok (rowsOf d) ∧
        dayPairsE (rowsOf d) d = Except.ok (pairsOf d)) →
      ((days.flatMap fun d => (pairsOf d).map Prod.fst) ++
        st.odict.map Prod.fst).Nodup →
      runDays fetch st days = Except.ok
        ⟨st.odict ++ days.flatMap pairsOf,
          foldHeaders st.dfHeaders days, st.errList⟩ := by
  intro days
  induction days with
  | nil =>
    intro st _ _
    simp only [runDays, List.flatMap_nil, List.append_nil, foldHeaders,
      List.foldl_nil]
  | cons d rest ih =>
    intro st hgood hnd
    have hd := hgood d (List.mem_cons_self d rest)
    rw [List.flatMap_cons, List.append_assoc] at hnd
    have hdisj : ∀ k ∈ (pairsOf d).map Prod.fst,
        k ∉ st.odict.map Prod.fst := by
      have h3 := (List.nodup_append.mp hnd).2.2
      intro k hk hk2
      exact h3 hk (List.mem_append_right _ hk2)
    have hstep := processDay_good fetch st d (rowsOf d) (pairsOf d)
      hd.1 hd.2 hdisj
    have hnd2 : ((rest.flatMap fun d2 => (pairsOf d2).map Prod.fst) ++
        ((st.odict ++ pairsOf d).map Prod.fst)).Nodup := by
      rw [List.map_append]
      have hperm : ((pairsOf d).map Prod.fst ++
          ((rest.flatMap fun d2 => (pairsOf d2).map Prod.fst) ++
            st.odict.map Prod.fst)).Perm
          (((rest.flatMap fun d2 => (pairsOf d2).map Prod.fst) ++
            st.odict.map Prod.fst) ++ (pairsOf d).map Prod.fst) :=
        List.perm_append_comm
      rw [List.append_assoc] at hperm
      exact hperm.nodup hnd
    simp only [runDays, dayStep, hstep]
    rw [ih ⟨st.odict ++ pairsOf d, pickHeaders st.dfHeaders (neaHeaders d),
      st.errList⟩ (fun d2 hd2 => hgood d2 (List.mem_cons_of_mem d hd2)) hnd2]
    simp only [List.flatMap_cons, foldHeaders, List.foldl_cons,
      List.append_assoc]

/-- The only exception the row-reading loop raises is `IndexError`. -/
theorem readRows_error_eq (headers : List String) :
    ∀ (rows : List RawRow) (od : DayData) (e : PyError),
      readRows headers od rows = Except.error e → e = PyError.indexError := by
  intro rows
  induction rows with
  | nil => intro od e h; exact absurd h (by simp [readRows])
  | cons row rest ih =>
    intro od e h
    cases row with
    | nil => simp only [readRows] at h; cases h; rfl
    | cons hourText cells =>
      simp only [readRows] at h
      by_cases hlen : headers.length ≤ cells.length
      · rw [if_pos hlen] at h
        exact ih _ e h
      · rw [if_neg hlen] at h
        cases h
        rfl

/-- A successful row-reading pass implies every data row was long enough:
one hour-label cell plus one cell per header. -/
theorem readRows_ok_len (headers : List String) :
    ∀ (rows : List RawRow) (od : DayData) (data : DayData),
      readRows headers od rows = Except.ok data →
      ∀ r ∈ rows, headers.length + 1 ≤ r.length := by
  intro rows
  induction rows with
  | nil => intro od data _ r hr; exact absurd hr (List.not_mem_nil r)
  | cons row rest ih =>
    intro od data h r hr
    cases row with
    | nil => simp only [readRows] at h; exact absurd h (by simp)
    | cons hourText cells =>
      simp only [readRows] at h
      by_cases hlen : headers.length ≤ cells.length
      · rw [if_pos hlen] at h
        rcases List.mem_cons.mp hr with hr | hr
        · subst hr
          simp only [List.length_cons]
          omega
        · exact ih _ data h r hr
      · rw [if_neg hlen] at h
        exact absurd h (by simp)

/-- A data row shorter than the active schema plus its hour cell makes the
whole parse of that day raise `IndexError`. -/
theorem getNeaDict_short_row (rows : List RawRow) (d : Date)
    (hshort : ∃ r ∈ rows.drop 2, r.length < (neaHeaders d).length + 1) :
    getNeaDict rows d = Except.error PyError.indexError := by
  unfold getNeaDict
  cases hr : readRows (neaHeaders d) [] (rows.drop 2) with
  | ok data =>
    exfalso
    obtain ⟨r, hrm, hlen⟩ := hshort
    have := readRows_ok_len (neaHeaders d) (rows.drop 2) [] data hr r hrm
    omega
  | error e =>
    rw [readRows_error_eq (neaHeaders d) (rows.drop 2) [] e hr]

/-- Every row stored by the row-reading loop carries exactly the header
list as its column keys, in order. -/
theorem readRows_vals_keys (headers : List String) :
    ∀ (rows : List RawRow) (od : DayData) (data : DayData),
      readRows headers od rows = Except.ok data →
      (∀ q ∈ od, q.2.map Prod.fst = headers) →
      ∀ q ∈ data, q.2.map Prod.fst = headers := by
  intro rows
  induction rows with
  | nil =>
    intro od data h hod
    simp only [readRows] at h
    cases h
    exact hod
  | cons row rest ih =>
    intro od data h hod
    cases row with
    | nil => simp only [readRows] at h; exact absurd h (by simp)
    | cons hourText cells =>
      simp only [readRows] at h
      by_cases hlen : headers.length ≤ cells.length
      · rw [if_pos hlen] at h
        refine ih _ data h ?_
        intro q hq
        rcases mem_dictInsert od hourText
            (headers.zip (cells.map pyStrip)) q hq with hq2 | hq2
        · exact hod q hq2
        · rw [hq2]
          exact List.map_fst_zip headers (cells.map pyStrip)
            (by rw [List.length_map]; exact hlen)
      · rw [if_neg hlen] at h
        exact absurd h (by simp)

/-- A property of the stored row values is preserved by the hour-insertion
loop. -/
theorem insertHours_vals (d : Date) (P : Vals → Prop) :
    ∀ (data : DayData) (od : Odict) (qs : Odict),
      insertHours d od data = Except.ok qs →
      (∀ q ∈ od, P q.2) → (∀ p ∈ data, P p.2) →
      ∀ q ∈ qs, P q.2 := by
  intro data
  induction data with
  | nil =>
    intro od qs h hod _
    simp only [insertHours] at h
    cases h
    exact hod
  | cons p rest ih =>
    intro od qs h hod hdata
    simp only [insertHours] at h
    cases htd : toDatetime d.year d.month d.day p.1 with
    | none => rw [htd] at h; exact absurd h (by simp)
    | some ts =>
      rw [htd] at h
      refine ih _ qs h ?_ (fun p2 hp2 => hdata p2 (List.mem_cons_of_mem p hp2))
      intro q hq
      rcases mem_dictInsert od ts p.2 q hq with hq2 | hq2
      · exact hod q hq2
      · rw [hq2]
        exact hdata p (List.mem_cons_self p rest)

/-- C6: over the days `_download_df` actually visits, if exactly one day
fails with a `RequestException` and every other day processes cleanly (its
fetch succeeds, its rows parse, its labels parse) with globally fresh
timestamps, then the run reports exactly one error message carrying that
day's date and cause, continues through the remaining days, and returns a
table holding exactly the rows of the successful days in order - no
placeholder for the failed day. -/
theorem c6_partial_failure (fetch : Date → Except PyError (List RawRow))
    (rowsOf : Date → List RawRow) (pairsOf : Date → Odict)
    (ys ye ms me ds : Nat) (de : Option Nat)
    (dBad : Date) (cause : String) (pre post : List Date)
    (hdays : downloadDays ys ye ms me ds de = pre ++ dBad :: post)
    (hbad : fetch dBad = Except.error (PyError.requestException cause))
    (hgood : ∀ d ∈ pre ++ post, fetch d = Except.ok (rowsOf d) ∧
      dayPairsE (rowsOf d) d = Except.ok (pairsOf d))
    (hnd : ((pre ++ post).flatMap fun d => (pairsOf d).map Prod.fst).Nodup) :
    downloadDf fetch ys ye ms me ds de = Except.ok
      (((pre ++ post).flatMap pairsOf).map (fun p =>
          (p.1, reindexRow (foldHeaders [] (pre ++ post)) p.2)),
        foldHeaders [] (pre ++ post),
        [errMsgFor dBad cause]) := by
  have hndpre : ((pre.flatMap fun d => (pairsOf d).map Prod.fst) ++
      (([] : Odict).map Prod.fst)).Nodup := by
    rw [List.flatMap_append] at hnd
    simpa using hnd.of_append_left
  have hpre := runDays_good fetch rowsOf pairsOf pre ⟨[], [], []⟩
    (fun d hd => hgood d (List.mem_append_left post hd)) hndpre
  have hstep : dayStep fetch
      ⟨[] ++ pre.flatMap pairsOf, foldHeaders [] pre, []⟩ dBad =
      Except.ok ⟨pre.flatMap pairsOf, foldHeaders [] pre,
        [errMsgFor dBad cause]⟩ := by
    simp only [dayStep, processDay, hbad, List.nil_append]
  have hndpost : ((post.flatMap fun d => (pairsOf d).map Prod.fst) ++
      ((pre.flatMap pairsOf).map Prod.fst)).Nodup := by
    rw [List.map_flatMap]
    rw [List.flatMap_append] at hnd
    exact List.nodup_append_comm.mp hnd
  have hrun : runDays fetch ⟨[], [], []⟩ (pre ++ dBad :: post) =
      Except.ok ⟨(pre ++ post).flatMap pairsOf,
        foldHeaders [] (pre ++ post), [errMsgFor dBad cause]⟩ := by
    rw [runDays_append fetch pre (dBad :: post) ⟨[], [], []⟩, hpre]
    show runDays fetch
      ⟨[] ++ pre.flatMap pairsOf, foldHeaders [] pre, []⟩ (dBad :: post) = _
    simp only [runDays, hstep]
    rw [runDays_good fetch rowsOf pairsOf post
      ⟨pre.flatMap pairsOf, foldHeaders [] pre, [errMsgFor dBad cause]⟩
      (fun d hd => hgood d (List.mem_append_right pre hd)) hndpost]
    rw [List.flatMap_append]
    unfold foldHeaders
    rw [List.foldl_append]
  unfold downloadDf
  rw [hdays, hrun]

/-- Concrete fetch oracle for the C6 witness: three visited days, the
middle one failing with a request exception. -/
def fetchC6 (d : Date) : Except PyError (List RawRow) :=
  if d = ⟨2016, 3, 2⟩ then Except.error (PyError.requestException "boom")
  else Except.ok [[], [], ["1am", "10", "11", "12", "13", "14", "15"]]

/-- The table rows the C6 witness oracle serves on successful days. -/
def rowsOfC6 (_ : Date) : List RawRow :=
  [[], [], ["1am", "10", "11", "12", "13", "14", "15"]]

/-- The per-day contribution of each successful day of the C6 witness. -/
def pairsOfC6 (d : Date) : Odict :=
  [(⟨d, 1, "+0800"⟩,
    psiHeaders.zip ["10", "11", "12", "13", "14", "15"])]

/-- The good days visited before and after the failing day in the C6
witness scenario. -/
def preC6 : List Date := [⟨2016, 3, 1⟩]

/-- The good days visited after the failing day in the C6 witness. -/
def postC6 : List Date := [⟨2016, 3, 3⟩]

/-- Witness for C6: the range 2016-03-01 to 2016-03-03 with 2016-03-02
failing yields exactly one error message and the rows of the two good
days. -/
theorem c6_partial_failure_witness :
    downloadDf fetchC6 2016 2016 3 3 1 (some 3) = Except.ok
      ((((preC6 ++ postC6).flatMap pairsOfC6).map (fun p =>
          (p.1, reindexRow (foldHeaders [] (preC6 ++ postC6)) p.2))),
        foldHeaders [] (preC6 ++ postC6),
        [errMsgFor ⟨2016, 3, 2⟩ "boom"]) :=
  c6_partial_failure fetchC6 rowsOfC6 pairsOfC6 2016 2016 3 3 1 (some 3)
    ⟨2016, 3, 2⟩ "boom" preC6 postC6
    (by decide) rfl
    (by
      intro d hd
      rcases List.mem_append.mp hd with h1 | h1
      · rw [List.mem_singleton.mp h1]
        exact ⟨rfl, rfl⟩
      · rw [List.mem_singleton.mp h1]
        exact ⟨rfl, rfl⟩)
    (by decide)

/-- C7: collecting 2014-03-31 to 2014-04-01 with both days fetching
successfully yields a table whose final column list is the twelve-column
PM2.5-inclusive schema, with no error, and every row of 2014-04-01 carries
an absent (`none`) value in each of the six PM2.5 columns rather than
raising. -/
theorem c7_cutoff_span_schema (fetch : Date → Except PyError (List RawRow))
    (rows31 rows01 : List RawRow) (pairs31 pairs01 : Odict)
    (h31 : fetch ⟨2014, 3, 31⟩ = Except.ok rows31)
    (h01 : fetch ⟨2014, 4, 1⟩ = Except.ok rows01)
    (hp31 : dayPairsE rows31 ⟨2014, 3, 31⟩ = Except.ok pairs31)
    (hp01 : dayPairsE rows01 ⟨2014, 4, 1⟩ = Except.ok pairs01)
    (hnd : (pairs31.map Prod.fst ++ pairs01.map Prod.fst).Nodup) :
    downloadDf fetch 2014 2014 3 4 31 (some 1) = Except.ok
      ((pairs31 ++ pairs01).map (fun p =>
          (p.1, reindexRow (psiHeaders ++ pmHeaders) p.2)),
        psiHeaders ++ pmHeaders, []) ∧
    (∀ p ∈ pairs01, ∀ hcol ∈ pmHeaders,
      (reindexRow (psiHeaders ++ pmHeaders) p.2).lookup hcol = some none) := by
  have hdays0 : downloadDays 2014 2014 3 4 31 (some 1) =
      [⟨2014, 3, 31⟩, ⟨2014, 4, 1⟩] := by decide
  have hdisj := (List.nodup_append.mp hnd).2.2
  have hstep31 : dayStep fetch ⟨[], [], []⟩ ⟨2014, 3, 31⟩ = Except.ok
      ⟨[] ++ pairs31, pickHeaders [] (neaHeaders ⟨2014, 3, 31⟩), []⟩ := by
    have hp := processDay_good fetch ⟨[], [], []⟩ ⟨2014, 3, 31⟩ rows31 pairs31
      h31 hp31 (by intro k _ hk2; exact absurd hk2 (List.not_mem_nil k))
    simp only [dayStep, hp]
  have hstep01 : dayStep fetch
      ⟨[] ++ pairs31, pickHeaders [] (neaHeaders ⟨2014, 3, 31⟩), []⟩
      ⟨2014, 4, 1⟩ = Except.ok
      ⟨([] ++ pairs31) ++ pairs01,
        pickHeaders (pickHeaders [] (neaHeaders ⟨2014, 3, 31⟩))
          (neaHeaders ⟨2014, 4, 1⟩), []⟩ := by
    have hfresh : ∀ k ∈ pairs01.map Prod.fst,
        k ∉ (([] : Odict) ++ pairs31).map Prod.fst := by
      intro k hk
      rw [List.nil_append]
      exact fun hk2 => hdisj hk2 hk
    have hp := processDay_good fetch
      ⟨[] ++ pairs31, pickHeaders [] (neaHeaders ⟨2014, 3, 31⟩), []⟩
      ⟨2014, 4, 1⟩ rows01 pairs01 h01 hp01 hfresh
    simp only [dayStep, hp]
  have hh : pickHeaders (pickHeaders [] (neaHeaders ⟨2014, 3, 31⟩))
      (neaHeaders ⟨2014, 4, 1⟩) = psiHeaders ++ pmHeaders := by decide
  have hrun : runDays fetch ⟨[], [], []⟩ [⟨2014, 3, 31⟩, ⟨2014, 4, 1⟩] =
      Except.ok ⟨pairs31 ++ pairs01, psiHeaders ++ pmHeaders, []⟩ := by
    simp only [runDays, hstep31, hstep01]
    rw [hh]
    simp only [List.nil_append]
  constructor
  · unfold downloadDf
    rw [hdays0, hrun]
  · have hnea : neaHeaders ⟨2014, 4, 1⟩ = psiHeaders := by decide
    have hkeys01 : ∀ q ∈ pairs01, q.2.map Prod.fst = psiHeaders := by
      cases hg : getNeaDict rows01 ⟨2014, 4, 1⟩ with
      | error e =>
        exfalso
        unfold dayPairsE at hp01
        rw [hg] at hp01
        exact absurd hp01 (by simp)
      | ok pr =>
        obtain ⟨data, hs⟩ := pr
        have hp01b : insertHours ⟨2014, 4, 1⟩ [] data = Except.ok pairs01 := by
          unfold dayPairsE at hp01
          rw [hg] at hp01
          exact hp01
        have hdata := readRows_vals_keys (neaHeaders ⟨2014, 4, 1⟩)
          (rows01.drop 2) [] data
          (getNeaDict_data rows01 ⟨2014, 4, 1⟩ data hs hg)
          (by intro q hq; exact absurd hq (List.not_mem_nil q))
        have hall := insertHours_vals ⟨2014, 4, 1⟩
          (fun v => v.map Prod.fst = neaHeaders ⟨2014, 4, 1⟩) data [] pairs01
          hp01b (by intro q hq; exact absurd hq (List.not_mem_nil q)) hdata
        intro q hq
        rw [← hnea]
        exact hall q hq
    intro p hp hcol hcolmem
    have hnotpsi : hcol ∉ psiHeaders := by
      have hsep : ∀ x ∈ pmHeaders, x ∉ psiHeaders := by decide
      exact hsep hcol hcolmem
    have hmem : hcol ∈ psiHeaders ++ pmHeaders :=
      List.mem_append_right psiHeaders hcolmem
    unfold reindexRow
    rw [lookup_map_graph (fun h2 => p.2.lookup h2)
      (psiHeaders ++ pmHeaders) hcol hmem]
    rw [lookup_none_of_not_mem p.2 hcol
      (by rw [hkeys01 p hp]; exact hnotpsi)]

/-- Concrete fetch oracle for the C7 witness: one pre-cutoff day with a
13-cell data row, one post-cutoff day with a 7-cell data row. -/
def fetchC7 (d : Date) : Except PyError (List RawRow) :=
  if d = ⟨2014, 3, 31⟩ then
    Except.ok [[], [],
      ["1am", "1", "2", "3", "4", "5", "6", "7", "8", "9", "10", "11", "12"]]
  else
    Except.ok [[], [], ["1am", "21", "22", "23", "24", "25", "26"]]

/-- The rows the C7 witness oracle serves for 2014-03-31. -/
def rows31C7 : List RawRow :=
  [[], [],
   ["1am", "1", "2", "3", "4", "5", "6", "7", "8", "9", "10", "11", "12"]]

/-- The rows the C7 witness oracle serves for 2014-04-01. -/
def rows01C7 : List RawRow :=
  [[], [], ["1am", "21", "22", "23", "24", "25", "26"]]

/-- The contribution of 2014-03-31 in the C7 witness. -/
def pairs31C7 : Odict :=
  [(⟨⟨2014, 3, 31⟩, 1, "+0800"⟩,
    (psiHeaders ++ pmHeaders).zip
      ["1", "2", "3", "4", "5", "6", "7", "8", "9", "10", "11", "12"])]

/-- The contribution of 2014-04-01 in the C7 witness. -/
def pairs01C7 : Odict :=
  [(⟨⟨2014, 4, 1⟩, 1, "+0800"⟩,
    psiHeaders.zip ["21", "22", "23", "24", "25", "26"])]

/-- Witness for C7 at a concrete two-day collection across the cutoff. -/
theorem c7_cutoff_span_schema_witness :
    downloadDf fetchC7 2014 2014 3 4 31 (some 1) = Except.ok
      ((pairs31C7 ++ pairs01C7).map (fun p =>
          (p.1, reindexRow (psiHeaders ++ pmHeaders) p.2)),
        psiHeaders ++ pmHeaders, []) :=
  (c7_cutoff_span_schema fetchC7 rows31C7 rows01C7 pairs31C7 pairs01C7
    rfl rfl rfl rfl (by decide)).1

/-- Amended C9: a fetched data row with fewer cells than one hour-label
cell plus one cell per active schema column raises an `IndexError` that the
per-day recovery (which catches only request exceptions) does not catch: it
propagates out of `_download_df` and aborts the whole run, returning no
table and reporting no per-day error for it. -/
theorem c9_short_row_aborts (fetch : Date → Except PyError (List RawRow))
    (rowsOf : Date → List RawRow) (pairsOf : Date → Odict)
    (ys ye ms me ds : Nat) (de : Option Nat)
    (dBad : Date) (pre post : List Date) (rowsB : List RawRow)
    (hdays : downloadDays ys ye ms me ds de = pre ++ dBad :: post)
    (hgoodpre : ∀ d ∈ pre, fetch d = Except.ok (rowsOf d) ∧
      dayPairsE (rowsOf d) d = Except.ok (pairsOf d))
    (hndpre : (pre.flatMap fun d => (pairsOf d).map Prod.fst).Nodup)
    (hfetchB : fetch dBad = Except.ok rowsB)
    (hshort : ∃ r ∈ rowsB.drop 2, r.length < (neaHeaders dBad).length + 1) :
    downloadDf fetch ys ye ms me ds de = Except.error PyError.indexError := by
  have hg := getNeaDict_short_row rowsB dBad hshort
  have hrunpre := runDays_good fetch rowsOf pairsOf pre ⟨[], [], []⟩
    hgoodpre (by simpa using hndpre)
  have hbadstep : dayStep fetch
      ⟨[] ++ pre.flatMap pairsOf, foldHeaders [] pre, []⟩ dBad =
      Except.error PyError.indexError := by
    simp only [dayStep, processDay, hfetchB, hg]
  have hrun : runDays fetch ⟨[], [], []⟩ (pre ++ dBad :: post) =
      Except.error PyError.indexError := by
    rw [runDays_append fetch pre (dBad :: post) ⟨[], [], []⟩, hrunpre]
    show runDays fetch
      ⟨[] ++ pre.flatMap pairsOf, foldHeaders [] pre, []⟩ (dBad :: post) = _
    simp only [runDays, hbadstep]
  unfold downloadDf
  rw [hdays, hrun]

/-- Concrete fetch oracle for C9: every day serves a table whose single
data row has one hour cell and one value cell, fewer than the seven cells
the six-column schema needs. -/
def fetchC9 (_ : Date) : Except PyError (List RawRow) :=
  Except.ok [[], [], ["1am", "10"]]

/-- Counterexample to C9 as claimed: on a one-day range whose table row is
short, `_download_df` does not skip the day and continue with an error
report (which would produce an `Except.ok` result carrying a message); it
aborts with an uncaught `IndexError`. -/
theorem c9_short_row_counterexample :
    downloadDf fetchC9 2016 2016 5 5 1 (some 1) =
      Except.error PyError.indexError := rfl

/-- Witness for the amended C9 on a two-day range: the short row of the
first day aborts the run before the second day is visited. -/
theorem c9_short_row_aborts_witness :
    downloadDf fetchC9 2016 2016 5 5 1 (some 2) =
      Except.error PyError.indexError :=
  c9_short_row_aborts fetchC9 (fun _ => []) (fun _ => [])
    2016 2016 5 5 1 (some 2) ⟨2016, 5, 1⟩ [] [⟨2016, 5, 2⟩]
    [[], [], ["1am", "10"]]
    (by decide)
    (by intro d hd; exact absurd hd (List.not_mem_nil d))
    (by decide)
    rfl
    (by decide)
